import Mathlib

set_option maxRecDepth 4000

namespace PackageJS

/-! Shallow embedding of the package registry in src/package.js and the
offline scan tools src/configure and src/configure.js.  JS objects used as
string-keyed maps are embedded as association lists; JS reference semantics
for package "pattern view" objects is embedded with an explicit heap of
numbered objects; the Node.js nextTick queue is an explicit task list and
callbacks are defunctionalised.  String splitting and joining are defined
over the character list of a string so that everything reduces in the
kernel. -/

/-- JS object property read on a string-keyed map (first binding wins; the
maps we build always have unique keys). -/
def alget {κ α : Type} [DecidableEq κ] : List (κ × α) → κ → Option α
  | [], _ => none
  | (k, v) :: rest, key => if k = key then some v else alget rest key

/-- JS object property write: replaces the existing binding in place or
appends a new one, preserving insertion order like a JS object. -/
def alset {κ α : Type} [DecidableEq κ] : List (κ × α) → κ → α → List (κ × α)
  | [], key, v => [(key, v)]
  | (k, w) :: rest, key, v =>
      if k = key then (k, v) :: rest else (k, w) :: alset rest key v

/-- JS delete operator on a string-keyed map. -/
def aldel {κ α : Type} [DecidableEq κ] : List (κ × α) → κ → List (κ × α)
  | [], _ => []
  | (k, w) :: rest, key =>
      if k = key then aldel rest key else (k, w) :: aldel rest key

/-- Split a character list at a separator character, like String.prototype.split
with a single-character separator in JS (never returns an empty list). -/
def splitCharsOn (sep : Char) : List Char → List (List Char)
  | [] => [[]]
  | c :: rest =>
      match splitCharsOn sep rest with
      | h :: t => if c = sep then [] :: h :: t else (c :: h) :: t
      | [] => [[]]

/-- pkgname.split('.') from the JS source. -/
def splitDots (s : String) : List String :=
  (splitCharsOn '.' s.data).map String.mk

/-- Array.prototype.join with a separator string. -/
def joinWith (sep : String) : List String → String
  | [] => ""
  | [x] => x
  | x :: xs => x ++ sep ++ joinWith sep xs

/-- components.join('.') from the JS source. -/
def joinDots (l : List String) : String := joinWith "." l

/-- s.startsWith(t), defined on character lists so it reduces. -/
def strStartsWith (s t : String) : Bool := t.data.isPrefixOf s.data

/-- s.endsWith(t), defined on character lists so it reduces. -/
def strEndsWith (s t : String) : Bool := t.data.reverse.isPrefixOf s.data.reverse

/-- Drop the last n characters of a string. -/
def strDropRight (s : String) (n : Nat) : String :=
  String.mk (s.data.take (s.data.length - n))

/-- Drop the first n characters of a string. -/
def strDrop (s : String) (n : Nat) : String := String.mk (s.data.drop n)

/-- Replace every '.' by '/' as in name.replace(/\./g, '/'). -/
def dotsToSlashes (s : String) : String :=
  String.mk (s.data.map (fun c => if c = '.' then '/' else c))

/-! ## Location configuration (src/package.js lines 74-107) -/

/-- A location configuration object.  The 'alias' key of the source is
called aliasName here because alias is a declaration keyword in Lean. -/
structure CfgObj where
  path : Option String := none
  url : Option String := none
  aliasName : Option String := none
deriving DecidableEq, Repr

/-- A config map entry is either a plain object or a function of the
remaining subpackage components (src/package.js lines 80-83). -/
inductive CfgEntry where
  | obj (o : CfgObj)
  | fn (f : List String → Option CfgObj)

/-- The builtin generic configuration for github.USERNAME.PROJECT.x.y.z
(src/package.js lines 94-107). -/
def githubConfigFn (components : List String) : Option CfgObj :=
  if components.length < 3 then none
  else
    let username := components.getD 0 ""
    let projectname := components.getD 1 ""
    let path := joinWith "/" (components.drop 2) ++ ".js"
    some { url := some ("https://raw.github.com/" ++ username ++ "/" ++
                        projectname ++ "/master/" ++ path) }

/-! ## findConfig (src/package.js lines 133-159)

The JS loop runs i from 0 to components.length - 1, looking up the key
components.slice(0, N - i) joined with dots, with a trailing star pushed
when i is positive.  The running variable cfg is reassigned on every
iteration; the loop breaks when a function entry returns a truthy value or
when an object entry is found at i = 0, and otherwise whatever cfg holds at
loop exit is returned.  We embed the loop as recursion over the list of
loop indices with cfg as an accumulator. -/

def findConfigLoop (config : List (String × CfgEntry)) (components : List String)
    (N : Nat) : List Nat → Option CfgObj → Option CfgObj
  | [], cfg => cfg
  | i :: rest, _ =>
      let partArr := components.take (N - i) ++ (if 0 < i then ["*"] else [])
      let part := joinDots partArr
      match alget config part with
      | none => findConfigLoop config components N rest none
      | some (CfgEntry.fn f) =>
          match f (components.drop (N - i)) with
          | some c => some c
          | none => findConfigLoop config components N rest none
      | some (CfgEntry.obj o) =>
          if i = 0 then some o
          else findConfigLoop config components N rest (some o)

/-- Search through the package hierarchy for a configuration, as the source
does (without the caching side effect, which the stateful wrapper adds). -/
def findConfig (config : List (String × CfgEntry)) (pkgname : String) :
    Option CfgObj :=
  let components := splitDots pkgname
  findConfigLoop config components components.length
    (List.range components.length) none

/-! ### C1: the claim's search sequence, and the sequence the code uses -/

/-- The candidate key and uncovered-suffix for ancestor level i of a name. -/
def candOf (components : List String) (i : Nat) : String × List String :=
  (joinDots (components.take (components.length - i) ++
      (if 0 < i then ["*"] else [])),
   components.drop (components.length - i))

/-- Modelled from the claim wording: the candidate sequence the claim says
findConfig consults, namely the exact name and then every ancestor prefix
with a wildcard suffix down to and including the bare wildcard. -/
def claimCandidates (components : List String) : List (String × List String) :=
  (List.range (components.length + 1)).map (candOf components)

/-- Modelled from the claim wording: first-match search over a candidate
list, where any entry matches, except that a function entry is invoked on
the uncovered components and a falsy result continues the search. -/
def claimSearch (config : List (String × CfgEntry)) :
    List (String × List String) → Option CfgObj
  | [] => none
  | (key, suffix) :: rest =>
      match alget config key with
      | none => claimSearch config rest
      | some (CfgEntry.obj o) => some o
      | some (CfgEntry.fn f) =>
          match f suffix with
          | some c => some c
          | none => claimSearch config rest

/-- Configuration lookup as the claim describes it. -/
def findConfigClaim (config : List (String × CfgEntry)) (pkgname : String) :
    Option CfgObj :=
  claimSearch config (claimCandidates (splitDots pkgname))

/-- The candidate sequence the code actually consults: ancestor levels 0 to
components.length - 1 only, so the bare wildcard key is never tried. -/
def codeCandidates (components : List String) : List (String × List String) :=
  (List.range components.length).map (candOf components)

/-- First-match search matching the code: a function entry matches when it
returns a truthy result; an object entry matches at the exact name (empty
uncovered suffix) or, by fall-through of the loop variable, when it sits at
the last consulted candidate. -/
def amendedSearch (config : List (String × CfgEntry)) :
    List (String × List String) → Option CfgObj
  | [] => none
  | (key, suffix) :: rest =>
      match alget config key with
      | none => amendedSearch config rest
      | some (CfgEntry.obj o) =>
          if suffix.isEmpty || rest.isEmpty then some o
          else amendedSearch config rest
      | some (CfgEntry.fn f) =>
          match f suffix with
          | some c => some c
          | none => amendedSearch config rest

/-- Accumulator form of the amended search, mirroring the loop variable. -/
def amendedSearchAcc (config : List (String × CfgEntry)) :
    List (String × List String) → Option CfgObj → Option CfgObj
  | [], acc => acc
  | (key, suffix) :: rest, _ =>
      match alget config key with
      | none => amendedSearchAcc config rest none
      | some (CfgEntry.obj o) =>
          if suffix.isEmpty then some o
          else amendedSearchAcc config rest (some o)
      | some (CfgEntry.fn f) =>
          match f suffix with
          | some c => some c
          | none => amendedSearchAcc config rest none

/-! ## Runtime values -/

/-- The JS values that flow through the registry in our scenarios: undefined,
a plain primitive, a string, an array of strings (listing values), or a
reference to a heap object. -/
inductive JSVal where
  | undef
  | base (n : Nat)
  | str (s : String)
  | list (l : List String)
  | ref (a : Nat)
deriving DecidableEq, Repr

/-- JS truthiness of the values we model. -/
def truthy : JSVal → Bool
  | .undef => false
  | .base n => !(decide (n = 0))
  | .str t => !(decide (t = ""))
  | .list _ => true
  | .ref _ => true

/-- A package definition argument: a plain value, or a function of the
dependency values which may return undefined (none). -/
inductive Defn where
  | val (v : JSVal)
  | fn (f : List JSVal → Option JSVal)

/-- Defunctionalised callbacks: the closures that the source passes to
with_package and addOnLoad.  user is a caller-supplied callback, depJoin is
the onePkgLoaded closure for a dependency slot, wild is the listing callback
of a wildcard dependency, wildSub the per-subpackage closure inside it,
aliasLoad the deferred closure of defAlias, and subdir the per-subdirectory
closure of the listing synthesis in loadPackageFromDisk. -/
inductive Cb where
  | user (id : Nat)
  | depJoin (cell : Nat) (i : Nat)
  | wild (cell : Nat) (i : Nat) (tname : String)
  | wildSub (cell : Nat) (sub : String)
  | aliasLoad (name : String)
  | subdir (cell : Nat)
deriving DecidableEq, Repr

/-- A queued nextTick action: invoke a callback with a value, issue a
delayed with_package request, or complete an http GET. -/
inductive Task where
  | run (cb : Cb) (v : JSVal)
  | req (name : String) (cb : Cb)
  | net (name : String) (url : String)
deriving DecidableEq, Repr

/-- Defunctionalised source text: what the evaluated file body does, namely
call the global package function in its 2-argument or 3-argument form. -/
inductive Src where
  | decl1 (name : String) (d : Defn)
  | decl3 (name : String) (deps : List String) (d : Defn)
  | noop

/-- The shared mutable state of one dependency join in package3: the
depPackages array (as slot index to value), count and dependencies.length. -/
structure JoinCell where
  pname : String
  defn : Defn
  total : Nat
  count : Nat
  slots : List (Nat × JSVal)

/-- The shared mutable state of one wildcard fan-out: the subPkgs object
address, subPkgCount and the listing length. -/
structure WildCell where
  joinId : Nat
  slot : Nat
  obj : Nat
  total : Nat
  count : Nat
deriving DecidableEq, Repr

/-- The shared mutable state of one recursive directory-listing join. -/
structure DirCell where
  name : String
  total : Nat
  count : Nat
deriving DecidableEq, Repr

/-- The whole mutable state of the loader: the registry maps of
src/package.js lines 62-88, the __parent and __CONFIG__ properties, the
nextTick queue, the join cells, an abstract file system for the Fetcher,
and observation logs (fetchLog for readFileSync and GET calls, console for
console output, events for invocations of caller-supplied callbacks). -/
structure St where
  packages : List (String × JSVal)
  heap : List (Nat × List (String × JSVal))
  heapNext : Nat
  loading : List String
  onloads : List (String × List Cb)
  config : List (String × CfgEntry)
  aliases : List (String × String)
  loadOrder : List (String × Nat)
  loadOrderCtr : Nat
  curParent : String
  curConfig : Option CfgObj
  tasks : List Task
  fetchLog : List (String × String)
  console : List String
  events : List (Nat × JSVal)
  joins : List (Nat × JoinCell)
  wilds : List (Nat × WildCell)
  dirCells : List (Nat × DirCell)
  cellNext : Nat
  fsFiles : List (String × Src)
  fsDirs : List (String × List String)
  netFiles : List (String × Src)
  crashed : Bool

/-- Read a field of a heap object. -/
def heapGet (s : St) (a : Nat) (fld : String) : Option JSVal :=
  match alget s.heap a with
  | some fields => alget fields fld
  | none => none

/-- Write a field of a heap object. -/
def heapSet (s : St) (a : Nat) (fld : String) (v : JSVal) : St :=
  match alget s.heap a with
  | some fields => { s with heap := alset s.heap a (alset fields fld v) }
  | none => s

/-- Allocate a fresh heap object with the given fields. -/
def heapAlloc (s : St) (fields : List (String × JSVal)) : St × Nat :=
  ({ s with heap := alset s.heap s.heapNext fields, heapNext := s.heapNext + 1 },
   s.heapNext)

/-- Component names rejected by validPkgName (src/package.js lines 115-126):
reading them on a JS function object yields a truthy value.  caller and
arguments read as null there, hence are accepted. -/
def invalidComponents : List String :=
  ["length", "name", "prototype", "constructor", "apply", "call", "bind",
   "toString", "toLocaleString", "valueOf", "hasOwnProperty",
   "isPrototypeOf", "propertyIsEnumerable"]

/-- validPkgName validates every dot component and returns the name; we model
the validation result (the exception becomes the crashed flag at call sites). -/
def validPkgName (n : String) : Bool :=
  (splitDots n).all (fun c => !(invalidComponents.contains c))

/-- trueName (src/package.js lines 186-191): prepend package.__parent to a
leading-dot name (initially the string coercion of undefined), then apply a
single alias substitution. -/
def trueName (s : St) (name : String) : String :=
  let name := if strStartsWith name "." then s.curParent ++ name else name
  match alget s.aliases name with
  | some t => t
  | none => name

/-- pseudoPackage (src/package.js lines 193-195). -/
def pseudoPackage (name : String) : Bool := strStartsWith name "#"

/-- knownPackage (src/package.js lines 182-184): packages[name] when truthy,
else the global object for the pseudo name, else undefined.  The global
object is heap address 0 of the initial state. -/
def knownPackage (s : St) (name : String) : JSVal :=
  let v := (alget s.packages name).getD JSVal.undef
  if truthy v then v
  else if name = "#global" then JSVal.ref 0 else JSVal.undef

/-- findConfig with its caching side effect (src/package.js lines 155-157):
a found configuration object is stored back under the queried exact name. -/
def findConfigSt (s : St) (pkgname : String) : St × Option CfgObj :=
  match findConfig s.config pkgname with
  | some c => ({ s with config := alset s.config pkgname (CfgEntry.obj c) },
               some c)
  | none => (s, none)

/-- packagePath (src/package.js lines 163-170): the configured path (which
may be absent) or the default derived path. -/
def packagePath (s : St) (name : String) : St × Option String :=
  match findConfigSt s name with
  | (s1, some c) => (s1, c.path)
  | (s1, none) => (s1, some (dotsToSlashes name ++ ".js"))

/-- An absolute http or https url (the regex on src/package.js line 175). -/
def isAbsoluteURL (u : String) : Bool :=
  strStartsWith u "http://" || strStartsWith u "https://"

/-- packageURL (src/package.js lines 173-180). -/
def packageURL (s : St) (name : String) : St × Option String :=
  let sc := findConfigSt s name
  match sc.2 with
  | some c =>
      match c.url with
      | some u => if isAbsoluteURL u then (sc.1, some u) else (sc.1, none)
      | none => (sc.1, none)
  | none => (sc.1, none)

/-- name.replace(+\.[^.]+$+, ''): drop the final dot component; a name with
no dot is returned unchanged (no regex match). -/
def dropLastComponent (name : String) : String :=
  let cs := splitDots name
  if 2 ≤ cs.length then joinDots cs.dropLast else name

/-- pname.replace(+\.[^.]+$+, dep): replace the final dot component of pname
by the relative dependency name dep, which carries its leading dot. -/
def replaceLastComponent (pname dep : String) : String :=
  let cs := splitDots pname
  if 2 ≤ cs.length then joinDots cs.dropLast ++ dep else pname

/-- pkg.match(+\.([^.]+)$+)[1]: the final dot component of a dotted name. -/
def lastComponentAfterDot (pkg : String) : String :=
  ((splitDots pkg).getLast?).getD ""

/-- relativePackagePath (src/package.js lines 445-453). -/
def relativePackagePath (path pkg : String) : String :=
  let components := (splitCharsOn '/' path.data).map String.mk
  let components := components.set (components.length - 1)
      (lastComponentAfterDot pkg ++ ".js")
  joinWith "/" components

/-- The test +^\.[^.]+$+ on src/package.js line 485: a single leading-dot
relative dependency component. -/
def isRelativeDep (dep : String) : Bool :=
  strStartsWith dep "." && decide (1 < dep.data.length) &&
    !((strDrop dep 1).data.contains '.')

/-- tname.replace(+\*$+, repl). -/
def replaceTrailingStar (tname repl : String) : String :=
  if strEndsWith tname "*" then strDropRight tname 1 ++ repl else tname

/-- where.replace(+__listing__\.js$+, ''). -/
def stripListingFileSuffix (whereS : String) : String :=
  if strEndsWith whereS "__listing__.js" then strDropRight whereS 14 else whereS

/-- name.replace(+\.__listing__$+, ''). -/
def stripListingPkgSuffix (name : String) : String :=
  if strEndsWith name ".__listing__" then strDropRight name 12 else name

/-- addOnLoad (src/package.js lines 227-233). -/
def addOnLoad (s : St) (name : String) (cb : Cb) : St :=
  match alget s.onloads name with
  | some cbs => { s with onloads := alset s.onloads name (cbs ++ [cb]) }
  | none => { s with onloads := alset s.onloads name [cb] }

/-- Core of setPackagePatterns (src/package.js lines 400-418), recursing on
the reversed component list (last component, then the reversed ancestor
components) so that the recursion on components.slice(0, length-1) of the
source becomes structural. -/
def setPatternsRev : St → String → List String → JSVal → St
  | s, lastC, [], p =>
      let cur := (alget s.packages "*").getD JSVal.undef
      if truthy cur then
        match cur with
        | JSVal.ref a => heapSet s a lastC p
        | _ => s
      else
        let sa := heapAlloc s [(lastC, p)]
        { sa.1 with packages := alset sa.1.packages "*" (JSVal.ref sa.2) }
  | s, lastC, r :: rpref, p =>
      let pattern := joinDots (r :: rpref).reverse ++ ".*"
      let cur := (alget s.packages pattern).getD JSVal.undef
      if truthy cur then
        match cur with
        | JSVal.ref a => heapSet s a lastC p
        | _ => s
      else
        let sa := heapAlloc s [(lastC, p)]
        let s2 := { sa.1 with packages := alset sa.1.packages pattern (JSVal.ref sa.2) }
        setPatternsRev s2 r rpref (JSVal.ref sa.2)

/-- setPackagePatterns (src/package.js lines 400-418). -/
def setPackagePatterns (s : St) (components : List String) (p : JSVal) : St :=
  match components.reverse with
  | [] => s
  | lastC :: rpref => setPatternsRev s lastC rpref p

/-- onPackageLoaded (src/package.js lines 420-443): republish the pattern
views, clear the loading flag, record the load order, log, and schedule and
clear the pending callbacks. -/
def onPackageLoaded (s : St) (name : String) : St × JSVal :=
  let p := (alget s.packages name).getD JSVal.undef
  let callbacks := alget s.onloads name
  let components :=
    match splitDots name with
    | c0 :: restC => trueName s c0 :: restC
    | [] => []
  let s := setPackagePatterns s components p
  let s := { s with loading := s.loading.filter (fun n => !(decide (n = name))) }
  let s := { s with loadOrder := alset s.loadOrder name s.loadOrderCtr,
                    loadOrderCtr := s.loadOrderCtr + 1 }
  let s := { s with console := s.console ++ ["package " ++ name ++ " loaded"] }
  match callbacks with
  | some cbs =>
      if 0 < cbs.length then
        ({ s with onloads := aldel s.onloads name,
                  tasks := s.tasks ++ cbs.map (fun cb => Task.run cb p) }, p)
      else (s, p)
  | none => (s, p)

/-- defWithFallback (src/package.js lines 212-215): an undefined return
value falls back to the this object. -/
def defWithFallback (pkg : JSVal) (f : List JSVal → Option JSVal)
    (dependencies : List JSVal) : JSVal :=
  match f dependencies with
  | some p => p
  | none => pkg

/-- The state mutations of definePackage (src/package.js lines 217-223)
before the final onPackageLoaded call: set package.__parent, create or
reuse the this object, and store the definition result. -/
def definePackageState (s : St) (name : String) (definition : Defn)
    (dependencies : List JSVal) : St :=
  let s := { s with curParent := dropLastComponent name }
  let existing := (alget s.packages name).getD JSVal.undef
  let sp : St × JSVal :=
    if truthy existing then (s, existing)
    else
      let sa := heapAlloc s []
      (sa.1, JSVal.ref sa.2)
  let s := { sp.1 with packages := alset sp.1.packages name sp.2 }
  let v :=
    match definition with
    | Defn.fn fdef => defWithFallback sp.2 fdef dependencies
    | Defn.val w => w
  { s with packages := alset s.packages name v }

/-- definePackage (src/package.js lines 217-225). -/
def definePackage (s : St) (name : String) (definition : Defn)
    (dependencies : List JSVal) : St × JSVal :=
  onPackageLoaded (definePackageState s name definition dependencies) name

/-- defAlias (src/package.js lines 554-568). -/
def defAlias (s : St) (name p : String) : St :=
  if ¬ (validPkgName name = true ∧ validPkgName p = true) then
    { s with crashed := true }
  else
    let s := { s with aliases := alset s.aliases name p }
    let pobj := (alget s.packages p).getD JSVal.undef
    if truthy pobj then
      let s := { s with packages := alset s.packages name pobj }
      (onPackageLoaded s name).1
    else
      addOnLoad s p (Cb.aliasLoad name)

/-- package.config (src/package.js lines 570-576): store each entry and
register its alias when it has one (function entries have none). -/
def configSet (s : St) (setupInfo : List (String × CfgEntry)) : St :=
  setupInfo.foldl (fun st kv =>
    let st := { st with config := alset st.config kv.1 kv.2 }
    match kv.2 with
    | CfgEntry.obj o =>
        match o.aliasName with
        | some a => defAlias st a kv.1
        | none => st
    | CfgEntry.fn _ => st) s

/-- loadConfig (src/package.js lines 455-461). -/
def loadConfig (s : St) (pname : String) : St :=
  match alget s.config pname, s.curConfig with
  | none, some cc =>
      configSet s [(pname, CfgEntry.obj { url := cc.url, path := cc.path })]
  | _, _ => s

/-- loadPackageFromURL (src/package.js lines 317-335): the GET is issued and
the response arrives on a later turn (a net task); a network failure is only
logged. -/
def loadPackageFromURL (s : St) (name url : String) : St :=
  let s := { s with fetchLog := s.fetchLog ++ [(name, url)] }
  match alget s.netFiles url with
  | some _ => { s with tasks := s.tasks ++ [Task.net name url] }
  | none => { s with console := s.console ++ ["GET error: " ++ url] }

/-- The body of the onePkgLoaded closure (src/package.js lines 477-483):
record the dependency value in its slot, count up, and when all dependencies
have arrived run definePackage with the positional dependency values. -/
def deliverDep (s : St) (jid i : Nat) (v : JSVal) : St :=
  match alget s.joins jid with
  | some cell =>
      let cell2 : JoinCell :=
        { cell with slots := alset cell.slots i v, count := cell.count + 1 }
      let s := { s with joins := alset s.joins jid cell2 }
      if cell2.count = cell2.total then
        let depvals := (List.range cell2.total).map
          (fun j => (alget cell2.slots j).getD JSVal.undef)
        (definePackage s cell2.pname cell2.defn depvals).1
      else s
  | none => s

/-- package2 (src/package.js lines 533-537). -/
def package2 (s : St) (name : String) (definition : Defn) : St × JSVal :=
  if ¬ validPkgName name then ({ s with crashed := true }, JSVal.undef)
  else
    let tname := trueName s name
    let s := loadConfig s tname
    definePackage s tname definition []

/-- The defunctionalised call graph of the loader: each constructor is one
function of the source that can transitively re-enter the loader, plus task
execution and queue draining. -/
inductive CallK where
  | wp (name : String) (cb : Cb)
  | load (name : String) (whereS : String)
  | defSrc (name : String) (source : Src)
  | srcRun (pkgname : String) (source : Src)
  | pkg1 (name : String)
  | pkg3 (name : String) (deps : List String) (d : Defn)
  | deps (pname : String) (pc : Option CfgObj) (jid : Nat)
         (ds : List String) (i : Nat)
  | cbRun (cb : Cb) (v : JSVal)
  | task (t : Task)
  | drain

/-- The fueled interpreter of the loader.  Fuel only bounds the call depth
and the number of processed tasks; all scenarios use ample fuel.
wp is with_package_in_fs (lines 264-287), load is loadPackageFromDisk
(lines 340-391), defSrc is definePackageFromSource (lines 197-202), srcRun
evaluates a fetched source body, pkg1 and pkg3 are package1/package3
(lines 539-543 and 463-531), deps is the dependencies.forEach of package3,
cbRun invokes a callback, task executes one nextTick entry and drain runs
the queue to exhaustion. -/
def interp : Nat → CallK → St → St × JSVal
  | 0, _, s => (s, JSVal.undef)
  | f + 1, k, s =>
    match k with
    | .wp name cb =>
        let p := knownPackage s name
        if truthy p then
          ({ s with tasks := s.tasks ++ [Task.run cb p] }, JSVal.undef)
        else if s.loading.any (fun n => decide (n = name)) then
          (addOnLoad s name cb, JSVal.undef)
        else
          let s := { s with loading := s.loading ++ [name] }
          let s := addOnLoad s name cb
          if pseudoPackage name then (s, JSVal.undef)
          else
            let su := packageURL s name
            match su.2 with
            | some u => (loadPackageFromURL su.1 name u, JSVal.undef)
            | none =>
                let sp := packagePath su.1 name
                interp f (.load name ((sp.2).getD "undefined")) sp.1
    | .load name whereS =>
        let s := { s with fetchLog := s.fetchLog ++ [(name, whereS)] }
        match alget s.fsFiles whereS with
        | some source =>
            let s := { s with curConfig := some { path := some whereS } }
            interp f (.defSrc name source) s
        | none =>
            if strEndsWith name ".__listing__" then
              let dirLoc := stripListingFileSuffix whereS
              match alget s.fsDirs dirLoc with
              | some dirContents =>
                  let jsFiles := dirContents.filter
                      (fun fname => strEndsWith fname ".js")
                  let parentPkg := stripListingPkgSuffix name
                  let s := jsFiles.foldl (fun st fname =>
                      configSet st [(parentPkg ++ "." ++ strDropRight fname 3,
                        CfgEntry.obj { path := some (dirLoc ++ fname) })]) s
                  let listingVal :=
                    JSVal.list (jsFiles.map (fun fname => strDropRight fname 3))
                  let s := { s with packages := alset s.packages name listingVal }
                  let subDirs := dirContents.filter (fun fname =>
                      (alget s.fsDirs (dirLoc ++ fname)).isSome)
                  if subDirs.length = 0 then
                    ((onPackageLoaded s name).1, JSVal.undef)
                  else
                    let did := s.cellNext
                    let s := { s with
                                cellNext := s.cellNext + 1,
                                dirCells := alset s.dirCells did
                                  ⟨name, subDirs.length, 0⟩ }
                    (subDirs.foldl (fun st fname =>
                      { st with tasks := st.tasks ++
                        [Task.req (strDropRight name 11 ++ fname ++ ".__listing__")
                          (Cb.subdir did)] }) s, JSVal.undef)
              | none => ({ s with crashed := true }, JSVal.undef)
            else
              ({ s with console := s.console ++
                  ["Failed to load package [" ++ name ++ "] from [" ++ whereS ++ "]",
                   "Current configuration = "] }, JSVal.undef)
    | .defSrc name source =>
        let s := loadConfig s name
        let sr := interp f (.srcRun name source) s
        (sr.1, (alget sr.1.packages name).getD JSVal.undef)
    | .srcRun _ source =>
        match source with
        | Src.decl1 n d => ((package2 s n d).1, JSVal.undef)
        | Src.decl3 n depsL d => interp f (.pkg3 n depsL d) s
        | Src.noop => (s, JSVal.undef)
    | .pkg1 name =>
        if ¬ validPkgName name then ({ s with crashed := true }, JSVal.undef)
        else
          let name := trueName s name
          let cur := (alget s.packages name).getD JSVal.undef
          if truthy cur then (s, cur)
          else
            let su := packageURL s name
            let sw : St × Option String :=
              match su.2 with
              | some u => (su.1, some u)
              | none => packagePath su.1 name
            let whereS := (sw.2).getD "undefined"
            let s := { sw.1 with fetchLog := sw.1.fetchLog ++ [(name, whereS)] }
            match alget s.fsFiles whereS with
            | some source => interp f (.defSrc name source) s
            | none => ({ s with crashed := true }, JSVal.undef)
    | .pkg3 name dependencies definition =>
        if ¬ validPkgName name then ({ s with crashed := true }, JSVal.undef)
        else
          let pname := trueName s name
          let s := loadConfig s pname
          let sc := findConfigSt s pname
          if 0 < dependencies.length then
            let jid := sc.1.cellNext
            let s := { sc.1 with
                        cellNext := sc.1.cellNext + 1,
                        joins := alset sc.1.joins jid
                          ⟨pname, definition, dependencies.length, 0, []⟩ }
            ((interp f (.deps pname sc.2 jid dependencies 0) s).1, JSVal.undef)
          else
            definePackage sc.1 pname definition []
    | .deps pname pnamecfg jid ds i =>
        match ds with
        | [] => (s, JSVal.undef)
        | dep :: rest =>
            let tname0 := trueName s dep
            let st : St × String :=
              if isRelativeDep dep then
                let depE := replaceLastComponent pname dep
                let tname := trueName s depE
                let sc := findConfigSt s tname
                match pnamecfg, sc.2 with
                | some pc, none =>
                    ({ sc.1 with config := alset sc.1.config tname (CfgEntry.obj
                        { path := pc.path.map (fun q => relativePackagePath q depE),
                          url := pc.url.map (fun u => relativePackagePath u depE) }) },
                     tname)
                | _, _ => (sc.1, tname)
              else (s, tname0)
            let s :=
              if strEndsWith st.2 ".*" then
                (interp f (.wp (replaceTrailingStar st.2 "__listing__")
                    (Cb.wild jid i st.2)) st.1).1
              else
                (interp f (.wp st.2 (Cb.depJoin jid i)) st.1).1
            interp f (.deps pname pnamecfg jid rest (i + 1)) s
    | .cbRun cb v =>
        match cb with
        | Cb.user id => ({ s with events := s.events ++ [(id, v)] }, JSVal.undef)
        | Cb.depJoin jid i => (deliverDep s jid i v, JSVal.undef)
        | Cb.wild jid i tname =>
            match v with
            | JSVal.list l =>
                let sa := heapAlloc s []
                let wid := sa.1.cellNext
                let s := { sa.1 with
                            cellNext := sa.1.cellNext + 1,
                            wilds := alset sa.1.wilds wid
                              ⟨jid, i, sa.2, l.length, 0⟩ }
                (l.foldl (fun stt sub =>
                    (interp f (.wp (replaceTrailingStar tname sub)
                      (Cb.wildSub wid sub)) stt).1) s, JSVal.undef)
            | _ => (s, JSVal.undef)
        | Cb.wildSub wid sub =>
            match alget s.wilds wid with
            | some cell =>
                let s := heapSet s cell.obj sub v
                let cell2 := { cell with count := cell.count + 1 }
                let s := { s with wilds := alset s.wilds wid cell2 }
                if cell2.count = cell2.total then
                  (deliverDep s cell.joinId cell.slot (JSVal.ref cell.obj),
                   JSVal.undef)
                else (s, JSVal.undef)
            | none => (s, JSVal.undef)
        | Cb.aliasLoad name =>
            let s := { s with packages := alset s.packages name v }
            ((onPackageLoaded s name).1, JSVal.undef)
        | Cb.subdir did =>
            match alget s.dirCells did with
            | some cell =>
                let cell2 := { cell with count := cell.count + 1 }
                let s := { s with dirCells := alset s.dirCells did cell2 }
                if cell2.count = cell2.total then
                  ((onPackageLoaded s cell.name).1, JSVal.undef)
                else (s, JSVal.undef)
            | none => (s, JSVal.undef)
    | .task t =>
        match t with
        | Task.run cb v => interp f (.cbRun cb v) s
        | Task.req name cb => interp f (.wp name cb) s
        | Task.net name url =>
            match alget s.netFiles url with
            | some source =>
                let s := { s with curConfig := some { url := some url } }
                interp f (.defSrc name source) s
            | none => (s, JSVal.undef)
    | .drain =>
        match s.tasks with
        | [] => (s, JSVal.undef)
        | t :: rest =>
            let s1 := (interp f (.task t) { s with tasks := rest }).1
            interp f .drain s1

/-- with_package_in_fs (src/package.js lines 264-287). -/
def with_package (fuel : Nat) (s : St) (name : String) (cb : Cb) : St :=
  (interp fuel (CallK.wp name cb) s).1

/-- package1 (src/package.js lines 539-543). -/
def package1 (fuel : Nat) (s : St) (name : String) : St × JSVal :=
  interp fuel (CallK.pkg1 name) s

/-- package3 (src/package.js lines 463-531). -/
def package3 (fuel : Nat) (s : St) (name : String) (deps : List String)
    (d : Defn) : St × JSVal :=
  interp fuel (CallK.pkg3 name deps d) s

/-- Run the nextTick queue to exhaustion (within the fuel). -/
def runTasks (fuel : Nat) (s : St) : St :=
  (interp fuel CallK.drain s).1

/-- Call kinds that execute inside a synchronous request: everything except
callback invocation, task execution and queue draining. -/
def syncKind : CallK → Bool
  | CallK.cbRun _ _ => false
  | CallK.task _ => false
  | CallK.drain => false
  | _ => true

/-- The initial state: empty registry except the builtin github
configuration, the global object at heap address 0, package.loadOrder
starting at 1, package.__parent undefined (string coercion), and the given
abstract file system and seed configuration. -/
def initSt (files : List (String × Src)) (dirs : List (String × List String))
    (cfg : List (String × CfgEntry)) : St :=
  { packages := [], heap := [(0, [])], heapNext := 1, loading := [],
    onloads := [], config := ("github.*", CfgEntry.fn githubConfigFn) :: cfg,
    aliases := [], loadOrder := [], loadOrderCtr := 1,
    curParent := "undefined", curConfig := none, tasks := [], fetchLog := [],
    console := [], events := [], joins := [], wilds := [], dirCells := [],
    cellNext := 0, fsFiles := files, fsDirs := dirs, netFiles := [],
    crashed := false }

/-- Read a field of a (reference) value. -/
def jsGet (s : St) (v : JSVal) (fld : String) : Option JSVal :=
  match v with
  | JSVal.ref a => heapGet s a fld
  | _ => none

/-- Navigate from a registry entry through object fields. -/
def viewPath (s : St) (root : String) (fields : List String) : Option JSVal :=
  fields.foldl (fun acc fld => acc.bind (fun v => jsGet s v fld))
    (alget s.packages root)

/-- A field of the object stored under a registry name. -/
def pkgField (s : St) (name fld : String) : Option JSVal :=
  (alget s.packages name).bind (fun v => jsGet s v fld)

/-- The path recorded in the config map under a name, when the entry is an
object. -/
def configPathOf (s : St) (name : String) : Option String :=
  match alget s.config name with
  | some (CfgEntry.obj o) => o.path
  | _ => none

/-- The load order number assigned to a name. -/
def loadOrderOf (s : St) (name : String) : Option Nat := alget s.loadOrder name

/-- How many fetches were initiated for a name. -/
def fetchesOf (s : St) (name : String) : Nat :=
  (s.fetchLog.filter (fun e => decide (e.1 = name))).length

/-- Process exactly k pending tasks (each with its own ample fuel). -/
def runKTasks (fuel : Nat) : Nat → St → St
  | 0, s => s
  | k + 1, s =>
      match s.tasks with
      | [] => s
      | t :: rest => runKTasks fuel k ((interp fuel (CallK.task t) { s with tasks := rest }).1)

/-! ## Concrete scenarios used by the claim theorems -/

/-- A fresh registry after defining a.b.c with value base 1 and then a.b.d
with value base 2 through the 2-argument call. -/
def patternScenario : St :=
  (package2 (package2 (initSt [] [] []) "a.b.c" (Defn.val (JSVal.base 1))).1
    "a.b.d" (Defn.val (JSVal.base 2))).1

/-- A fresh registry after defining x.y with value base 5. -/
def definedScenario : St :=
  (package2 (initSt [] [] []) "x.y" (Defn.val (JSVal.base 5))).1

/-- Requesting the already-loaded x.y and then draining the queue. -/
def loadedRun : St :=
  runTasks 10 (with_package 10 definedScenario "x.y" (Cb.user 3))

/-- A file system where a/b.js defines a.b with value base 6. -/
def fetchOkScenario : St :=
  initSt [("a/b.js", Src.decl1 "a.b" (Defn.val (JSVal.base 6)))] [] []

/-- Requesting the unseen a.b whose fetch succeeds, then draining. -/
def fetchOkRun : St :=
  runTasks 20 (with_package 20 fetchOkScenario "a.b" (Cb.user 9))

/-- Requesting the unseen c.d on an empty file system, then draining. -/
def fetchFailRun : St :=
  runTasks 20 (with_package 20 (initSt [] [] []) "c.d" (Cb.user 7))

/-- A file system where a/b.js defines a.b with one pseudo dependency, so
that a.b stays loading when the first request returns. -/
def dedupScenario : St :=
  initSt [("a/b.js", Src.decl3 "a.b" ["#global"] (Defn.val (JSVal.base 4)))] [] []

/-- The first request for a.b: fetches and evaluates a/b.js synchronously,
but the definition waits on the pseudo dependency. -/
def dedupFirst : St := with_package 50 dedupScenario "a.b" (Cb.user 1)

/-- The second request arrives while a.b is still loading; then drain. -/
def dedupFinal : St :=
  runTasks 50 (with_package 50 dedupFirst "a.b" (Cb.user 2))

/-- A registry holding a package z whose value is the falsy base 0. -/
def falsyScenario : St :=
  (package2 (initSt [] [] []) "z" (Defn.val (JSVal.base 0))).1

/-- Requesting z again even though packages.z is set (to a falsy value). -/
def falsyRequest : St := with_package 10 falsyScenario "z" (Cb.user 1)

/-- C6 scenario: a.b.target is configured at dir/target.js and the sibling
file dir/sibling.js defines a.b.sibling with value base 21. -/
def relDepScenario : St :=
  initSt [("dir/sibling.js", Src.decl1 "a.b.sibling" (Defn.val (JSVal.base 21)))] []
    [("a.b.target", CfgEntry.obj { path := some "dir/target.js" })]

/-- Defining a.b.target with the relative dependency .sibling; the state
after the synchronous part of package3. -/
def relDepAfter : St :=
  (package3 50 relDepScenario "a.b.target" [".sibling"] (Defn.val (JSVal.base 22))).1

/-- And after draining the queue, so the target itself is defined. -/
def relDepFinal : St := runTasks 20 relDepAfter

/-- C7 scenario: the listing file a/b/__listing__.js defines the listing
value as the array x, y and the two sibling files define a.b.x and a.b.y. -/
def wildScenario : St :=
  initSt
    [("a/b/__listing__.js",
        Src.decl1 "a.b.__listing__" (Defn.val (JSVal.list ["x", "y"]))),
     ("a/b/x.js", Src.decl1 "a.b.x" (Defn.val (JSVal.base 31))),
     ("a/b/y.js", Src.decl1 "a.b.y" (Defn.val (JSVal.base 32)))] [] []

/-- Defining top with the single wildcard dependency a.b.*; the definition
function exports the dependency value itself. -/
def wildAfter : St :=
  (package3 60 wildScenario "top" ["a.b.*"] (Defn.fn (fun deps => deps.head?))).1

/-- After the listing callback and the a.b.x callback have run but the a.b.y
callback has not: both subpackages are loaded but the join is not complete. -/
def wildMid : St := runKTasks 60 2 wildAfter

/-- After draining the whole queue. -/
def wildFinal : St := runTasks 60 wildAfter

/-- C8 scenario: request a.nope on an empty file system. -/
def failFirst : St := with_package 30 (initSt [] [] []) "a.nope" (Cb.user 5)

/-- A second, later request for the same stuck name. -/
def failSecond : St := with_package 30 (runTasks 30 failFirst) "a.nope" (Cb.user 6)

/-- And the final quiescent state. -/
def failFinal : St := runTasks 30 failSecond

/-- C1 counterexample configuration: only the bare wildcard key holds an
entry (a function that accepts any subpackage). -/
def starOnlyConfig : List (String × CfgEntry) :=
  [("*", CfgEntry.fn (fun _ => some { path := some "z" }))]

/-! ## Offline scanner (src/configure and src/configure.js) -/

/-- JS truthiness of an optional path field (an absent or empty string path
is falsy). -/
def optTruthy : Option String → Bool
  | some t => !(decide (t = ""))
  | none => false

/-- package.config of the configure tool (src/configure lines 19-38): a
conflict is flagged when the name already has a configuration, the new
entry is not a path overriding a non-path, and the two configurations
differ (JSON.stringify equality becomes structural equality); the error
carries the diagnostic's name, previous spec and new spec. -/
def configureMergeOne (cfgs : List (String × CfgObj)) (k : String) (v : CfgObj) :
    Except (String × CfgObj × CfgObj) (List (String × CfgObj)) :=
  match alget cfgs k with
  | some old =>
      if (¬ (optTruthy v.path = true ∧ optTruthy old.path = false)) ∧ old ≠ v then
        Except.error (k, old, v)
      else Except.ok (alset cfgs k v)
  | none => Except.ok (alset cfgs k v)

/-- _package.config of the configure.js variant (src/configure.js lines
17-29): any differing configuration for an already-recorded name conflicts;
there is no path-over-non-path exception. -/
def configureJsMergeOne (cfgs : List (String × CfgObj)) (k : String) (v : CfgObj) :
    Except (String × CfgObj × CfgObj) (List (String × CfgObj)) :=
  match alget cfgs k with
  | some old =>
      if old ≠ v then Except.error (k, old, v)
      else Except.ok (alset cfgs k v)
  | none => Except.ok (alset cfgs k v)

/-- Modelled from the claim wording: merging conflicts exactly when a
different configuration is already recorded, unless the new entry has a
(non-empty) path and the existing entry has none. -/
def claimConflict (old v : CfgObj) : Bool :=
  decide (old ≠ v) && !(optTruthy v.path && !optTruthy old.path)

/-- The merge as the claim describes it, built from claimConflict. -/
def claimMergeOne (cfgs : List (String × CfgObj)) (k : String) (v : CfgObj) :
    Except (String × CfgObj × CfgObj) (List (String × CfgObj)) :=
  match alget cfgs k with
  | some old =>
      if claimConflict old v then Except.error (k, old, v)
      else Except.ok (alset cfgs k v)
  | none => Except.ok (alset cfgs k v)

theorem amendedSearchAcc_eq (config : List (String × CfgEntry)) :
    ∀ (l : List (String × List String)) (acc : Option CfgObj), l ≠ [] →
      amendedSearchAcc config l acc = amendedSearch config l := by
  intro l
  induction l with
  | nil => intro acc h; exact absurd rfl h
  | cons hd rest ih =>
      intro acc _
      obtain ⟨key, suffix⟩ := hd
      cases rest with
      | nil =>
          simp only [amendedSearchAcc, amendedSearch]
          cases h : alget config key with
          | none => rfl
          | some e =>
              cases e with
              | obj o =>
                  simp only [List.isEmpty_nil, Bool.or_true, if_true]
                  cases hs : suffix.isEmpty <;> simp [amendedSearchAcc]
              | fn f => rfl
      | cons a b =>
          have hne : a :: b ≠ [] := by simp
          simp only [amendedSearchAcc, amendedSearch]
          cases h : alget config key with
          | none => exact ih none hne
          | some e =>
              cases e with
              | obj o =>
                  dsimp only
                  have hre : (a :: b).isEmpty = false := rfl
                  rw [hre, Bool.or_false]
                  cases hs : suffix.isEmpty with
                  | true => rfl
                  | false => exact ih (some o) hne
              | fn f =>
                  dsimp only
                  cases hf : f suffix with
                  | none => exact ih none hne
                  | some c => rfl

theorem findConfigLoop_eq_amendedAcc (config : List (String × CfgEntry))
    (components : List String) (hne : components ≠ []) :
    ∀ (is : List Nat) (acc : Option CfgObj),
      findConfigLoop config components components.length is acc =
        amendedSearchAcc config (is.map (candOf components)) acc := by
  intro is
  induction is with
  | nil => intro acc; rfl
  | cons i rest ih =>
      intro acc
      have hsuffix : (components.drop (components.length - i)).isEmpty =
          decide (i = 0) := by
        rcases Nat.eq_zero_or_pos i with hi | hi
        · subst hi
          simp [List.drop_eq_nil_of_le, List.isEmpty_iff]
        · have h1 : components.length - i < components.length := by
            have : 0 < components.length := List.length_pos.mpr hne
            omega
          have h2 : ¬ (components.drop (components.length - i) = []) := by
            intro hd
            have := List.drop_eq_nil_iff.mp hd
            omega
          have h3 : i ≠ 0 := by omega
          simp [List.isEmpty_iff, h2, h3]
      simp only [List.map_cons, findConfigLoop, amendedSearchAcc, candOf]
      cases halget : alget config
          (joinDots (components.take (components.length - i) ++
            (if 0 < i then ["*"] else []))) with
      | none => exact ih none
      | some e =>
          cases e with
          | obj o =>
              dsimp only
              rw [hsuffix]
              by_cases hi : i = 0
              · simp [hi]
              · simp only [hi, decide_eq_true_eq, if_neg hi]
                exact ih (some o)
          | fn f =>
              dsimp only
              cases hf : f (components.drop (components.length - i)) with
              | none => exact ih none
              | some c => rfl

/-- The code's findConfig agrees with the amended first-match search over
the candidate sequence it actually consults. -/
theorem findConfig_eq_amendedSearch (config : List (String × CfgEntry))
    (pkgname : String) :
    findConfig config pkgname =
      amendedSearch config (codeCandidates (splitDots pkgname)) := by
  have h1 : findConfig config pkgname =
      findConfigLoop config (splitDots pkgname) (splitDots pkgname).length
        (List.range (splitDots pkgname).length) none := rfl
  have h2 : codeCandidates (splitDots pkgname) =
      (List.range (splitDots pkgname).length).map (candOf (splitDots pkgname)) := rfl
  rw [h1, h2]
  cases hc : splitDots pkgname with
  | nil => rfl
  | cons c cs =>
      have hne : c :: cs ≠ [] := by simp
      rw [findConfigLoop_eq_amendedAcc config (c :: cs) hne]
      apply amendedSearchAcc_eq
      simp

/-- C1 (amended): for every configuration and package name, lookup tries
the exact name and then each ancestor prefix followed by a wildcard suffix
from most-specific to least-specific, but only down to the first
component's wildcard — the bare wildcard key is never consulted; it stops
at the first match, where a function entry matches when it returns a truthy
value on the uncovered components (a falsy result continues the search at
the next, less specific ancestor) and a non-function entry matches at the
exact name or, by fall-through of the loop variable, at the last consulted
level. -/
theorem C1_config_search_order (config : List (String × CfgEntry))
    (pkgname : String) :
    findConfig config pkgname =
      amendedSearch config (codeCandidates (splitDots pkgname)) :=
  findConfig_eq_amendedSearch config pkgname

/-- C1 counterexample: with only the bare wildcard configured (as a
function entry that matches any subpackage), lookup of the name a returns
nothing, although the search sequence stated in the claim would reach the
bare wildcard and match it. -/
theorem C1_counterexample :
    findConfig starOnlyConfig "a" = none ∧
    findConfigClaim starOnlyConfig "a" = some { path := some "z" } :=
  ⟨rfl, rfl⟩

/-- C2: after a.b.c is defined with value base 1 (and a sibling a.b.d with
base 2), the value is reachable through every pattern view — package of
a.b.c itself, package of a.b.* then field c, a.* then b, c, and * then
a, b, c — all yielding the same value, with the intermediate pattern
objects accumulating both siblings rather than being overwritten. -/
theorem C2_pattern_views :
    alget patternScenario.packages "a.b.c" = some (JSVal.base 1) ∧
    (package1 2 patternScenario "a.b.c").2 = JSVal.base 1 ∧
    (package1 2 patternScenario "a.b.c").1 = patternScenario ∧
    jsGet patternScenario (package1 2 patternScenario "a.b.*").2 "c" =
      some (JSVal.base 1) ∧
    viewPath patternScenario "a.b.*" ["c"] = some (JSVal.base 1) ∧
    viewPath patternScenario "a.*" ["b", "c"] = some (JSVal.base 1) ∧
    viewPath patternScenario "*" ["a", "b", "c"] = some (JSVal.base 1) ∧
    viewPath patternScenario "a.b.*" ["d"] = some (JSVal.base 2) ∧
    viewPath patternScenario "a.*" ["b", "d"] = some (JSVal.base 2) ∧
    viewPath patternScenario "*" ["a", "b", "d"] = some (JSVal.base 2) :=
  ⟨rfl, rfl, rfl, rfl, rfl, rfl, rfl, rfl, rfl, rfl⟩

/-- C3 counterexample: c.d is a valid name, yet after requesting it on an
empty file system and draining the queue the callback was never invoked
(no events), the system is quiescent, and the name is stuck loading — so a
request does not always invoke its callback exactly once. -/
theorem C3_counterexample :
    validPkgName "c.d" = true ∧
    fetchFailRun.events = [] ∧
    fetchFailRun.tasks = [] ∧
    fetchFailRun.loading = ["c.d"] :=
  ⟨rfl, rfl, rfl, rfl⟩

/-- C4: a.b is requested twice before its load completes (after the first
request it is still in the loading set and not yet in packages); exactly
one fetch is ever initiated for it, and both callbacks fire with the
identical resolved value. -/
theorem C4_dedup_single_fetch :
    dedupFirst.loading = ["a.b"] ∧
    alget dedupFirst.packages "a.b" = none ∧
    fetchesOf dedupFinal "a.b" = 1 ∧
    dedupFinal.fetchLog = [("a.b", "a/b.js")] ∧
    dedupFinal.events = [(1, JSVal.base 4), (2, JSVal.base 4)] ∧
    dedupFinal.tasks = [] :=
  ⟨rfl, rfl, rfl, rfl, rfl, rfl⟩

/-- C5 counterexample: z is present in the packages map (with the falsy
value base 0), yet a subsequent request initiates a fetch for it — so a
request for a name already present does not always avoid a fetch. -/
theorem C5_counterexample :
    alget falsyScenario.packages "z" = some (JSVal.base 0) ∧
    falsyScenario.fetchLog = [] ∧
    falsyRequest.fetchLog = [("z", "z.js")] :=
  ⟨rfl, rfl, rfl⟩

/-- C6: when a.b.target with configured path dir/target.js is defined with
the relative dependency .sibling, the dependency expands to a.b.sibling,
which had no configuration of its own and is auto-configured with the
derived path dir/sibling.js (same directory, last component plus .js), and
is then fetched from exactly that location. -/
theorem C6_relative_autoconfig :
    replaceLastComponent "a.b.target" ".sibling" = "a.b.sibling" ∧
    configPathOf relDepScenario "a.b.sibling" = none ∧
    configPathOf relDepAfter "a.b.sibling" = some "dir/sibling.js" ∧
    relDepAfter.fetchLog = [("a.b.sibling", "dir/sibling.js")] ∧
    alget relDepAfter.packages "a.b.sibling" = some (JSVal.base 21) ∧
    alget relDepFinal.packages "a.b.target" = some (JSVal.base 22) :=
  ⟨rfl, rfl, rfl, rfl, rfl, rfl⟩

/-- C7: the wildcard dependency a.b.* resolves, through the listing value
x, y, to an object with exactly the fields x and y holding the values of
a.b.x and a.b.y; and the dependent's definition fires only once the last
listed subpackage has resolved: in the intermediate state both x and y are
individually loaded but the count-down is not complete and top is still
undefined, and in the final state top's load order is after both. -/
theorem C7_wildcard_fanout :
    alget wildFinal.packages "a.b.__listing__" = some (JSVal.list ["x", "y"]) ∧
    pkgField wildFinal "top" "x" = some (JSVal.base 31) ∧
    pkgField wildFinal "top" "y" = some (JSVal.base 32) ∧
    alget wildFinal.packages "top" = some (JSVal.ref 5) ∧
    alget wildFinal.heap 5 = some [("x", JSVal.base 31), ("y", JSVal.base 32)] ∧
    loadOrderOf wildFinal "a.b.x" = some 2 ∧
    loadOrderOf wildFinal "a.b.y" = some 3 ∧
    loadOrderOf wildFinal "top" = some 4 ∧
    alget wildMid.packages "top" = none ∧
    loadOrderOf wildMid "a.b.x" = some 2 ∧
    loadOrderOf wildMid "a.b.y" = some 3 :=
  ⟨rfl, rfl, rfl, rfl, rfl, rfl, rfl, rfl, rfl, rfl, rfl⟩

/-- C8: when the fetch for the non-listing name a.nope fails, the failure
is only logged to the console: the name stays in the loading set, the
pending callbacks of both the original and a later request are never
invoked (no events) and never cleared, packages stays unset for it, no
second fetch is attempted, and nothing crashes or remains queued. -/
theorem C8_failed_fetch_hangs :
    failFinal.loading = ["a.nope"] ∧
    alget failFinal.onloads "a.nope" = some [Cb.user 5, Cb.user 6] ∧
    failFinal.events = [] ∧
    alget failFinal.packages "a.nope" = none ∧
    failFinal.fetchLog = [("a.nope", "a/nope.js")] ∧
    failFinal.console =
      ["Failed to load package [a.nope] from [a/nope.js]",
       "Current configuration = "] ∧
    failFinal.tasks = [] ∧
    failFinal.crashed = false :=
  ⟨rfl, rfl, rfl, rfl, rfl, rfl, rfl, rfl⟩

/-- C9 (amended): the configure tool's merge behaves exactly as the claim
describes — it aborts with the previous and new specs when a different
configuration is already recorded, unless the new entry has a path and the
existing one has none, and re-recording an identical configuration never
conflicts; concretely, a path overriding a url succeeds and an identical
re-record succeeds.  (The configure.js variant lacks the path-override
exception; see the counterexample.) -/
theorem C9_configure_conflict (cfgs : List (String × CfgObj)) (k : String)
    (v : CfgObj) :
    configureMergeOne cfgs k v = claimMergeOne cfgs k v ∧
    configureMergeOne [("p", { url := some "u" })] "p" { path := some "q" } =
      Except.ok [("p", { path := some "q" })] ∧
    configureMergeOne [("p", { url := some "u" })] "p" { url := some "u" } =
      Except.ok [("p", { url := some "u" })] := by
  refine ⟨?_, rfl, rfl⟩
  unfold configureMergeOne claimMergeOne
  cases halget : alget cfgs k with
  | none => rfl
  | some old =>
      dsimp only
      cases hv : optTruthy v.path <;> cases ho : optTruthy old.path <;>
        by_cases he : old = v <;>
          simp [claimConflict, hv, ho, he]

/-- C9 counterexample: in the configure.js variant a new path entry, where
the existing entry has no path (only a url), aborts with a conflict even
though the claim says such an override does not conflict. -/
theorem C9_counterexample :
    configureJsMergeOne [("p", { url := some "http://x/y.js" })] "p"
        { path := some "dir/p.js" } =
      Except.error ("p", { url := some "http://x/y.js" },
        { path := some "dir/p.js" }) ∧
    claimConflict { url := some "http://x/y.js" } { path := some "dir/p.js" } =
      false :=
  ⟨rfl, rfl⟩

/-! ## No callback ever runs synchronously: the events log is untouched by
every call kind that executes inside a request. -/

theorem heapSet_events (s : St) (a : Nat) (fld : String) (v : JSVal) :
    (heapSet s a fld v).events = s.events := by
  unfold heapSet; cases alget s.heap a <;> rfl

theorem heapAlloc_events (s : St) (fields : List (String × JSVal)) :
    ((heapAlloc s fields).1).events = s.events := rfl

theorem addOnLoad_events (s : St) (name : String) (cb : Cb) :
    (addOnLoad s name cb).events = s.events := by
  unfold addOnLoad; cases alget s.onloads name <;> rfl

theorem setPatternsRev_events :
    ∀ (rpref : List String) (s : St) (lastC : String) (p : JSVal),
      (setPatternsRev s lastC rpref p).events = s.events := by
  intro rpref
  induction rpref with
  | nil =>
      intro s lastC p
      unfold setPatternsRev
      dsimp only
      repeat' split
      all_goals simp [heapSet_events, heapAlloc_events]
  | cons r rp ih =>
      intro s lastC p
      unfold setPatternsRev
      dsimp only
      repeat' split
      all_goals simp [heapSet_events, heapAlloc_events, ih]

theorem setPackagePatterns_events (s : St) (components : List String) (p : JSVal) :
    (setPackagePatterns s components p).events = s.events := by
  unfold setPackagePatterns
  cases components.reverse <;> simp [setPatternsRev_events]

theorem onPackageLoaded_events (s : St) (name : String) :
    ((onPackageLoaded s name).1).events = s.events := by
  unfold onPackageLoaded
  dsimp only
  repeat' split
  all_goals simp [setPackagePatterns_events]

theorem definePackageState_events (s : St) (name : String) (d : Defn)
    (deps : List JSVal) :
    (definePackageState s name d deps).events = s.events := by
  unfold definePackageState
  try dsimp only
  repeat' split
  all_goals simp [heapAlloc_events]

theorem definePackage_events (s : St) (name : String) (d : Defn)
    (deps : List JSVal) :
    ((definePackage s name d deps).1).events = s.events := by
  unfold definePackage
  rw [onPackageLoaded_events, definePackageState_events]

theorem defAlias_events (s : St) (name p : String) :
    (defAlias s name p).events = s.events := by
  unfold defAlias
  dsimp only
  repeat' split
  all_goals simp [onPackageLoaded_events, addOnLoad_events]

theorem foldl_events {α : Type} (g : St → α → St)
    (h : ∀ st a, (g st a).events = st.events) :
    ∀ (l : List α) (st : St), (l.foldl g st).events = st.events := by
  intro l
  induction l with
  | nil => intro st; rfl
  | cons a rest ih =>
      intro st
      rw [List.foldl_cons, ih, h]

theorem configSet_events (s : St) (setupInfo : List (String × CfgEntry)) :
    (configSet s setupInfo).events = s.events := by
  unfold configSet
  apply foldl_events
  intro st kv
  dsimp only
  cases kv.2 with
  | fn g => rfl
  | obj o =>
      dsimp only
      cases o.aliasName with
      | none => rfl
      | some a => simp [defAlias_events]

theorem loadConfig_events (s : St) (pname : String) :
    (loadConfig s pname).events = s.events := by
  unfold loadConfig
  cases alget s.config pname <;> cases s.curConfig <;>
    simp [configSet_events]

theorem findConfigSt_events (s : St) (pkgname : String) :
    ((findConfigSt s pkgname).1).events = s.events := by
  unfold findConfigSt
  cases findConfig s.config pkgname <;> rfl

theorem packagePath_events (s : St) (name : String) :
    ((packagePath s name).1).events = s.events := by
  unfold packagePath
  have h := findConfigSt_events s name
  rcases hfc : findConfigSt s name with ⟨s1, o⟩
  rw [hfc] at h
  cases o <;> simpa using h

theorem packageURL_events (s : St) (name : String) :
    ((packageURL s name).1).events = s.events := by
  unfold packageURL
  have h := findConfigSt_events s name
  rcases hfc : findConfigSt s name with ⟨s1, o⟩
  rw [hfc] at h
  cases o with
  | none => simpa using h
  | some c =>
      try dsimp only
      cases hcu : c.url with
      | none => simpa using h
      | some u =>
          try dsimp only
          split <;> simpa using h

theorem loadPackageFromURL_events (s : St) (name url : String) :
    (loadPackageFromURL s name url).events = s.events := by
  unfold loadPackageFromURL
  try dsimp only
  repeat' split
  all_goals rfl

theorem package2_events (s : St) (name : String) (d : Defn) :
    ((package2 s name d).1).events = s.events := by
  unfold package2
  split
  · rfl
  · simp [definePackage_events, loadConfig_events]

theorem foldl_configSet_events (dirLoc parentPkg : String)
    (l : List String) (st : St) :
    (l.foldl (fun st2 fname =>
      configSet st2 [(parentPkg ++ "." ++ strDropRight fname 3,
        CfgEntry.obj { path := some (dirLoc ++ fname) })]) st).events =
      st.events :=
  foldl_events _ (fun st2 _ => configSet_events st2 _) l st

theorem foldl_subdirTasks_events (name : String) (did : Nat)
    (l : List String) (st : St) :
    (l.foldl (fun st2 fname =>
      { st2 with tasks := st2.tasks ++
        [Task.req (strDropRight name 11 ++ fname ++ ".__listing__")
          (Cb.subdir did)] }) st).events = st.events := by
  apply foldl_events
  intro st2 a
  rfl

/-- No user callback is ever invoked during the synchronous part of a
request: every call kind other than callback invocation, task execution
and queue draining leaves the events log unchanged. -/
theorem interp_sync_events :
    ∀ (f : Nat) (k : CallK) (s : St), syncKind k = true →
      ((interp f k s).1).events = s.events := by
  intro f
  induction f with
  | zero => intro k s _; rfl
  | succ f ih =>
      intro k s hk
      cases k with
      | cbRun cb v => simp [syncKind] at hk
      | task t => simp [syncKind] at hk
      | drain => simp [syncKind] at hk
      | wp name cb =>
          simp only [interp]
          try dsimp only
          repeat' split
          all_goals
            simp [addOnLoad_events, packageURL_events, packagePath_events,
              loadPackageFromURL_events, ih, syncKind]
      | load name whereS =>
          simp only [interp]
          try dsimp only
          repeat' split
          all_goals
            simp [onPackageLoaded_events, configSet_events,
              foldl_configSet_events, foldl_subdirTasks_events, ih, syncKind]
      | defSrc name source =>
          simp only [interp]
          try dsimp only
          simp [loadConfig_events, ih, syncKind]
      | srcRun pk source =>
          simp only [interp]
          try dsimp only
          repeat' split
          all_goals simp [package2_events, ih, syncKind]
      | pkg1 name =>
          simp only [interp]
          try dsimp only
          repeat' split
          all_goals
            simp [packageURL_events, packagePath_events, findConfigSt_events,
              ih, syncKind]
      | pkg3 name depsL d =>
          simp only [interp]
          try dsimp only
          repeat' split
          all_goals
            simp [loadConfig_events, findConfigSt_events, definePackage_events,
              ih, syncKind]
      | deps pname pc jid ds i =>
          simp only [interp]
          try dsimp only
          repeat' split
          all_goals
            simp [findConfigSt_events, ih, syncKind]

/-- C3 (amended): a request never invokes its callback synchronously — for
every fuel, state, name and callback the synchronous part of with_package
leaves the events log unchanged — and the callback fires exactly once, on a
later turn, when the name is already loaded at call time or when its fetch
and definition succeed; a name whose fetch fails never fires its callback
(see the counterexample). -/
theorem C3_callback_async_exactly_once_when_loadable :
    (∀ (f : Nat) (s : St) (name : String) (cb : Cb),
        (with_package f s name cb).events = s.events) ∧
    loadedRun.events = [(3, JSVal.base 5)] ∧ loadedRun.tasks = [] ∧
    fetchOkRun.events = [(9, JSVal.base 6)] ∧ fetchOkRun.tasks = [] :=
  ⟨fun f s name cb => interp_sync_events f (CallK.wp name cb) s rfl,
   rfl, rfl, rfl, rfl⟩

/-- C5 (amended): for every name present in the packages map with a truthy
value (and not shadowed by an alias or the relative marker), a one-argument
lookup returns the cached value and leaves the whole state unchanged, and a
request only schedules the callback with the cached value — no fetch, no
change to packages — and the scheduled invocation delivers exactly that
value. -/
theorem C5_cached_no_refetch (f : Nat) (s : St) (name : String) (id : Nat)
    (v : JSVal)
    (hvalid : validPkgName name = true)
    (hdot : strStartsWith name "." = false)
    (halias : alget s.aliases name = none)
    (hv : alget s.packages name = some v)
    (ht : truthy v = true) :
    package1 (f + 1) s name = (s, v) ∧
    with_package (f + 1) s name (Cb.user id) =
      { s with tasks := s.tasks ++ [Task.run (Cb.user id) v] } ∧
    interp (f + 1) (CallK.cbRun (Cb.user id) v) s =
      ({ s with events := s.events ++ [(id, v)] }, JSVal.undef) := by
  have htn : trueName s name = name := by
    unfold trueName
    rw [hdot]
    simp [halias]
  refine ⟨?_, ?_, rfl⟩
  · unfold package1
    simp only [interp, hvalid]
    simp [htn, hv, ht]
  · unfold with_package
    simp only [interp]
    simp [knownPackage, hv, ht]

/-- C5 witness: the registry holding x.y with value base 5 satisfies all
the hypotheses, the lookup returns the cached value without any state
change, and the request only schedules the callback. -/
theorem C5_witness :
    validPkgName "x.y" = true ∧
    strStartsWith "x.y" "." = false ∧
    alget definedScenario.aliases "x.y" = none ∧
    alget definedScenario.packages "x.y" = some (JSVal.base 5) ∧
    truthy (JSVal.base 5) = true ∧
    (package1 3 definedScenario "x.y" = (definedScenario, JSVal.base 5) ∧
     with_package 3 definedScenario "x.y" (Cb.user 7) =
       { definedScenario with
          tasks := definedScenario.tasks ++ [Task.run (Cb.user 7) (JSVal.base 5)] } ∧
     interp 3 (CallK.cbRun (Cb.user 7) (JSVal.base 5)) definedScenario =
       ({ definedScenario with
            events := definedScenario.events ++ [(7, JSVal.base 5)] },
        JSVal.undef)) :=
  ⟨rfl, rfl, rfl, rfl, rfl,
   C5_cached_no_refetch 2 definedScenario "x.y" 7 (JSVal.base 5)
     rfl rfl rfl rfl rfl⟩

/-! ## package2 and package3 with no dependencies agree (C10): the only
difference between the two paths is the findConfig caching side effect,
which touches only the config map. -/

theorem heapSet_config (s : St) (c : List (String × CfgEntry)) (a : Nat)
    (fld : String) (v : JSVal) :
    heapSet { s with config := c } a fld v =
      { heapSet s a fld v with config := c } := by
  unfold heapSet
  dsimp only
  cases alget s.heap a <;> rfl

theorem addOnLoad_config (s : St) (c : List (String × CfgEntry))
    (name : String) (cb : Cb) :
    addOnLoad { s with config := c } name cb =
      { addOnLoad s name cb with config := c } := by
  unfold addOnLoad
  dsimp only
  cases alget s.onloads name <;> rfl

theorem heapAlloc_config (s : St) (c : List (String × CfgEntry))
    (fields : List (String × JSVal)) :
    heapAlloc { s with config := c } fields =
      ({ (heapAlloc s fields).1 with config := c },
       (heapAlloc s fields).2) := rfl

theorem setPatternsRev_config :
    ∀ (rpref : List String) (s : St) (c : List (String × CfgEntry))
      (lastC : String) (p : JSVal),
      setPatternsRev { s with config := c } lastC rpref p =
        { setPatternsRev s lastC rpref p with config := c } := by
  intro rpref
  induction rpref with
  | nil =>
      intro s c lastC p
      unfold setPatternsRev
      dsimp only
      repeat' split
      all_goals simp [heapSet_config, heapAlloc_config]
  | cons r rp ih =>
      intro s c lastC p
      unfold setPatternsRev
      dsimp only
      split
      · split <;> simp [heapSet_config]
      · exact ih ({ (heapAlloc s [(lastC, p)]).1 with
            packages := alset (heapAlloc s [(lastC, p)]).1.packages
              (joinDots (r :: rp).reverse ++ ".*")
              (JSVal.ref (heapAlloc s [(lastC, p)]).2) }) c r
          (JSVal.ref (heapAlloc s [(lastC, p)]).2)

theorem setPackagePatterns_config (s : St) (c : List (String × CfgEntry))
    (components : List String) (p : JSVal) :
    setPackagePatterns { s with config := c } components p =
      { setPackagePatterns s components p with config := c } := by
  unfold setPackagePatterns
  cases components.reverse <;> simp [setPatternsRev_config]

theorem onPackageLoaded_config (s : St) (c : List (String × CfgEntry))
    (name : String) :
    onPackageLoaded { s with config := c } name =
      ({ (onPackageLoaded s name).1 with config := c },
       (onPackageLoaded s name).2) := by
  unfold onPackageLoaded
  dsimp only
  repeat' split
  all_goals simp [setPackagePatterns_config, trueName]

theorem definePackageState_config (s : St) (c : List (String × CfgEntry))
    (name : String) (d : Defn) (deps : List JSVal) :
    definePackageState { s with config := c } name d deps =
      { definePackageState s name d deps with config := c } := by
  unfold definePackageState
  try dsimp only
  repeat' split
  all_goals simp [heapAlloc]

theorem definePackage_config (s : St) (c : List (String × CfgEntry))
    (name : String) (d : Defn) (deps : List JSVal) :
    definePackage { s with config := c } name d deps =
      ({ (definePackage s name d deps).1 with config := c },
       (definePackage s name d deps).2) := by
  unfold definePackage
  rw [definePackageState_config]
  exact onPackageLoaded_config (definePackageState s name d deps) c name

/-- C10: the two-argument call and the three-argument call with an empty
dependency array return the same value and leave identical packages maps;
for an invalid name both crash identically.  The full states can differ
only in the config map, because package3 additionally runs the findConfig
cache. -/
theorem C10_package2_eq_package3_empty (f : Nat) (s : St) (name : String)
    (d : Defn) :
    (package2 s name d).2 = (package3 (f + 1) s name [] d).2 ∧
    (package2 s name d).1.packages =
      (package3 (f + 1) s name [] d).1.packages := by
  unfold package2 package3
  simp only [interp]
  by_cases hvalid : validPkgName name = true
  · simp only [hvalid]
    try dsimp only
    cases hfind : findConfig (loadConfig s (trueName s name)).config
        (trueName s name) with
    | none => simp [findConfigSt, hfind]
    | some cfound => simp [findConfigSt, hfind, definePackage_config]
  · simp [hvalid]

end PackageJS
